import Mathlib

/-!
# PotterPi core — shallow embedding and verification

This file embeds the tracking-and-classification core of the PotterPi
repository and proves the specified properties about it.

* `WandTracker` state machine — from `src/potterpi/motion_tracker.py`
  (`WandTracker.__init__`, `update`, `reset`, `get_cast_duration`,
  `find_wand`).
* `SpellRecognizer` — from `src/spell_recognition.py`
  (`SpellRecognizer.recognize`, `get_spell_stats`).

Conventions of the embedding:
* Pixel positions are integer pairs `ℤ × ℤ` (`(x, y)`), as in the source
  where positions are integer pixel coordinates.
* Wall-clock time (`time.time()`) is passed in explicitly as a rational
  `now`; `cast_start_time` is `Option ℚ` (`None` in Python ↦ `none`).
* Floating-point arithmetic of the source is idealized as exact real
  arithmetic; Euclidean distances use `Real.sqrt`.
* The movement gate of `WandTracker.update` compares
  `sqrt(dx² + dy²) < min_movement`; for a natural-number `min_movement`
  this is equivalent to the integer comparison `dx² + dy² < min_movement²`,
  which the executable step function uses (the equivalence is proved in
  `sqrt_lt_iff_sq_lt`).
-/

namespace PotterPi

/-- A pixel position `(x, y)`, as produced by `find_wand`. -/
abbrev Pos := ℤ × ℤ

/-- Squared Euclidean distance between two integer positions.
`WandTracker.update` computes `np.sqrt((Δx)**2 + (Δy)**2)` and compares it
with `min_movement`; we keep the squared form, which is exactly equivalent
for a nonnegative `min_movement` (see `sqrt_lt_iff_sq_lt`). -/
def sqDist (a b : Pos) : ℤ := (b.1 - a.1) ^ 2 + (b.2 - a.2) ^ 2

/-- Configuration of `WandTracker.__init__` (`brightness_threshold` lives in
`find_wand` and is threaded there separately). -/
structure TrackerConfig where
  minMovement : ℕ
  pathLength : ℕ

/-- The mutable state of a `WandTracker`:
`self.path`, `self.last_position`, `self.is_casting`, `self.cast_start_time`. -/
structure WandState where
  path : List Pos
  lastPosition : Option Pos
  isCasting : Bool
  castStartTime : Option ℚ
  deriving DecidableEq, Repr

/-- The state set up by `WandTracker.__init__`: empty path, no last
position, not casting, no cast start time. -/
def initState : WandState :=
  { path := [], lastPosition := none, isCasting := false, castStartTime := none }

/-- `deque(maxlen := cap)` append: the new element goes at the end and the
front is trimmed so that at most `cap` elements remain (when the deque is
at capacity the oldest entry is evicted; a capacity-0 deque stays empty). -/
def pushBounded (cap : ℕ) (xs : List Pos) (p : Pos) : List Pos :=
  let ys := xs ++ [p]
  ys.drop (ys.length - cap)

/-- The movement gate of `WandTracker.update`: a present position is
skipped when a last-seen position exists and the Euclidean distance to it
is below `min_movement` (squared-distance comparison, equivalent to the
source's `sqrt` comparison by `sqrt_lt_iff_sq_lt`). -/
def gatedOut (cfg : TrackerConfig) (s : WandState) (p : Pos) : Bool :=
  match s.lastPosition with
  | some lastp => decide (sqDist lastp p < (cfg.minMovement : ℤ) ^ 2)
  | none => false

/-- `WandTracker.update`, with the located position passed in (`find_wand`
already applied) and the current wall-clock time `now` made explicit.
Returns the new state and the boolean result.

Source (`motion_tracker.py` lines 95–126):
* `position is None`: if `is_casting and len(path) > 0` then
  `is_casting = False`; `last_position = None`; return `False`.
* position present but gated out: return `is_casting`, no state change.
* otherwise: if not casting, set `is_casting = True`,
  `cast_start_time = now`, `path.clear()`; then `path.append(position)`,
  `last_position = position`; return `True`. -/
def update (cfg : TrackerConfig) (s : WandState) (pos : Option Pos) (now : ℚ) :
    WandState × Bool :=
  match pos with
  | none =>
      let s1 := if s.isCasting = true ∧ 0 < s.path.length
        then { s with isCasting := false } else s
      ({ s1 with lastPosition := none }, false)
  | some p =>
      if gatedOut cfg s p then (s, s.isCasting)
      else
        let s1 := if s.isCasting then s
          else { s with isCasting := true, castStartTime := some now, path := [] }
        ({ s1 with path := pushBounded cfg.pathLength s1.path p,
                   lastPosition := some p }, true)

/-- `WandTracker.reset`: clear path, last position, casting flag and cast
start time. -/
def reset (s : WandState) : WandState :=
  { s with path := [], lastPosition := none, isCasting := false,
           castStartTime := none }

/-- `WandTracker.get_cast_duration`: `if self.cast_start_time:` is Python
truthiness, so the duration is `now - cast_start_time` whenever
`cast_start_time` is set and nonzero, and `0` otherwise. -/
def getCastDuration (s : WandState) (now : ℚ) : ℚ :=
  match s.castStartTime with
  | some t => if t = 0 then 0 else now - t
  | none => 0

/-- One external call to the tracker: an `update` with a located position
(or none) at a given time, or a `reset`. -/
inductive TrackerCall where
  | upd (pos : Option Pos) (now : ℚ)
  | reset
  deriving Repr

/-- Apply one call to the state (dropping `update`'s boolean result). -/
def step (cfg : TrackerConfig) (s : WandState) : TrackerCall → WandState
  | .upd pos now => (update cfg s pos now).1
  | .reset => reset s

/-- Run a sequence of calls from a state. -/
def run (cfg : TrackerConfig) (s : WandState) : List TrackerCall → WandState
  | [] => s
  | c :: cs => run cfg (step cfg s c) cs

/-- The positions a run of calls appends to the path (accepts), in
chronological order: a present position that is not gated out. -/
def acceptedFrom (cfg : TrackerConfig) (s : WandState) :
    List TrackerCall → List Pos
  | [] => []
  | .reset :: cs => acceptedFrom cfg (step cfg s .reset) cs
  | .upd none now :: cs => acceptedFrom cfg (step cfg s (.upd none now)) cs
  | .upd (some p) now :: cs =>
      (if gatedOut cfg s p then [] else [p])
        ++ acceptedFrom cfg (step cfg s (.upd (some p) now)) cs

/-- The reachable-state invariant of the tracker: while casting the path
is nonempty, and while idle no last-seen position is retained. -/
def Inv (s : WandState) : Prop :=
  (s.isCasting = true → s.path ≠ []) ∧
  (s.isCasting = false → s.lastPosition = none)

instance (s : WandState) : Decidable (Inv s) := by
  unfold Inv; infer_instance

/-! ## `WandTracker.find_wand` (`motion_tracker.py` lines 40–83)

A frame is a grid of brightness values, row-major (`frame[y][x]`).
`cv2.threshold(..., THRESH_BINARY)` marks pixels strictly brighter than
the threshold; `cv2.findContours(..., RETR_EXTERNAL, ...)` yields one
external contour per connected bright region (8-connectivity); the region
masks obtained from `drawContours` are modelled as the connected
components themselves. -/

/-- A frame: rows of brightness values (0–255). -/
abbrev Frame := List (List ℕ)

/-- Brightness of pixel `(x, y)` (`frame[y][x]`; out-of-range reads 0,
never used in range). -/
def pixelVal (frame : Frame) (p : ℕ × ℕ) : ℕ :=
  (frame.getD p.2 []).getD p.1 0

/-- The pixels set by `cv2.threshold(frame, brightness_threshold, 255,
THRESH_BINARY)`: those with brightness strictly above the threshold,
in row-major order. -/
def brightPixels (frame : Frame) (thresh : ℕ) : List (ℕ × ℕ) :=
  (List.range frame.length).flatMap fun y =>
    (List.range (frame.getD y []).length).filterMap fun x =>
      if thresh < pixelVal frame (x, y) then some (x, y) else none

/-- 8-connectivity adjacency of two distinct pixels. -/
def adj8 (p q : ℕ × ℕ) : Bool :=
  decide (p ≠ q) &&
    decide (((p.1 : ℤ) - q.1).natAbs ≤ 1 ∧ ((p.2 : ℤ) - q.2).natAbs ≤ 1)

/-- Grow one connected component: move every pixel of `rest` adjacent to
the component into it, until a fixpoint (the fuel bounds the iterations
by the number of pixels). -/
def growComponent (fuel : ℕ) (comp rest : List (ℕ × ℕ)) :
    List (ℕ × ℕ) × List (ℕ × ℕ) :=
  match fuel with
  | 0 => (comp, rest)
  | fuel + 1 =>
      let (near, far) := rest.partition fun q => comp.any fun p => adj8 p q
      if near.isEmpty then (comp, rest)
      else growComponent fuel (comp ++ near) far

/-- Split a pixel list into connected components, in discovery order. -/
def componentsAux (fuel : ℕ) (pts : List (ℕ × ℕ)) : List (List (ℕ × ℕ)) :=
  match fuel, pts with
  | 0, _ => []
  | _, [] => []
  | fuel + 1, p :: rest =>
      let (comp, rest2) := growComponent (p :: rest).length [p] rest
      comp :: componentsAux fuel rest2

/-- Connected bright regions of the binarized frame (the contours found by
`cv2.findContours`). -/
def components (pts : List (ℕ × ℕ)) : List (List (ℕ × ℕ)) :=
  componentsAux pts.length pts

/-- Mean original-frame brightness over a region
(`cv2.mean(frame, mask=mask)[0]`). -/
def regionMean (frame : Frame) (comp : List (ℕ × ℕ)) : ℚ :=
  ((comp.map (pixelVal frame)).sum : ℚ) / (comp.length : ℚ)

/-- The loop selecting `brightest_region`: scan the contours keeping the
first region whose mean brightness strictly exceeds the running maximum
(initially `0`, region initially absent). -/
def selectBrightest (frame : Frame) (contours : List (List (ℕ × ℕ))) :
    Option (List (ℕ × ℕ)) :=
  (contours.foldl
    (fun acc c =>
      if acc.2 < regionMean frame c then (some c, regionMean frame c) else acc)
    ((none : Option (List (ℕ × ℕ))), (0 : ℚ))).1

/-- `WandTracker.find_wand`: binarize, find contours, return `None` when
there are none; otherwise pick the region with the highest mean
brightness and return the integer centroid `(m10/m00, m01/m00)` of its
moments, guarded by `m00 != 0` (for a component, `m00` is its pixel
count, `m10`/`m01` the coordinate sums; `int()` truncation is ℕ
division). -/
def find_wand (frame : Frame) (brightnessThreshold : ℕ) : Option (ℕ × ℕ) :=
  let contours := components (brightPixels frame brightnessThreshold)
  if contours.isEmpty then none
  else
    match selectBrightest frame contours with
    | none => none
    | some comp =>
        let m00 := comp.length
        if m00 ≠ 0 then
          some ((comp.map Prod.fst).sum / m00, (comp.map Prod.snd).sum / m00)
        else none

/-! ## SpellRecognizer (`src/spell_recognition.py`) -/

/-- Euclidean length of the segment from `a` to `b`
(`np.sqrt(Δx² + Δy²)`, idealized over ℝ). -/
noncomputable def segDist (a b : Pos) : ℝ :=
  Real.sqrt (((b.1 - a.1 : ℤ) : ℝ) ^ 2 + ((b.2 - a.2 : ℤ) : ℝ) ^ 2)

/-- Total distance traveled along the path: the sum of the Euclidean
lengths of consecutive segments
(`np.sum(np.sqrt(np.sum(np.diff(points, axis=0)**2, axis=1)))`). -/
noncomputable def totalDistance : List Pos → ℝ
  | [] => 0
  | [_] => 0
  | a :: b :: rest => segDist a b + totalDistance (b :: rest)

/-- Start-to-end displacement `(dx, dy) = end - start`
(`points[-1] - points[0]`). Defaults to `(0, 0)` on the empty path, on
which the Python source would instead raise an `IndexError`; all theorems
below only invoke it on nonempty paths. -/
def displacement (path : List Pos) : ℤ × ℤ :=
  ((path.getLastI).1 - (path.headI).1, (path.getLastI).2 - (path.headI).2)

/-- Straight-line distance from start to end
(`np.sqrt(dx**2 + dy**2)`). -/
noncomputable def straightDistance (path : List Pos) : ℝ :=
  Real.sqrt (((displacement path).1 : ℝ) ^ 2 + ((displacement path).2 : ℝ) ^ 2)

/-- `straightness = straight_distance / total_distance`. -/
noncomputable def straightness (path : List Pos) : ℝ :=
  straightDistance path / totalDistance path

/-- The five values `recognize` can return when it does not reject:
the four directional string constants and `UNKNOWN`. -/
inductive SpellLabel where
  | horizontalRight
  | horizontalLeft
  | verticalUp
  | verticalDown
  | unknown
  deriving DecidableEq, Repr

/-- Configuration of `SpellRecognizer.__init__`. -/
structure RecognizerConfig where
  minPoints : ℕ
  straightnessThreshold : ℝ

open Classical in
/-- `SpellRecognizer.recognize` (`spell_recognition.py` lines 35–103):
1. fewer than `min_points` points → `None`;
2. `straight_distance == 0` → `None`;
3. `straightness < straightness_threshold` → `UNKNOWN`;
4. `max(|dx|, |dy|) < 30` → `None`;
5. otherwise classify: `|dx| > |dy|` → `Right` if `dx > 0` else `Left`;
   else → `Down` if `dy > 0` else `Up`. -/
noncomputable def recognize (cfg : RecognizerConfig) (path : List Pos) :
    Option SpellLabel :=
  if path.length < cfg.minPoints then none
  else if straightDistance path = 0 then none
  else if straightness path < cfg.straightnessThreshold then
    some .unknown
  else if max |(displacement path).1| |(displacement path).2| < 30 then none
  else if |(displacement path).2| < |(displacement path).1| then
    if 0 < (displacement path).1 then some .horizontalRight
    else some .horizontalLeft
  else
    if 0 < (displacement path).2 then some .verticalDown
    else some .verticalUp

/-- The record returned by `SpellRecognizer.get_spell_stats`. -/
structure GestureStats where
  numPoints : ℕ
  start : Pos
  endPoint : Pos
  dxy : ℤ × ℤ
  totalDist : ℝ
  straightDist : ℝ
  straight : ℝ

open Classical in
/-- `SpellRecognizer.get_spell_stats` (`spell_recognition.py` lines
105–136): `None` for fewer than 2 points, otherwise the derived record;
its `straightness` field is `straight_distance / total_distance` when
`total_distance > 0`, else `0`. -/
noncomputable def getSpellStats (path : List Pos) : Option GestureStats :=
  if path.length < 2 then none
  else some
    { numPoints := path.length
      start := path.headI
      endPoint := path.getLastI
      dxy := displacement path
      totalDist := totalDistance path
      straightDist := straightDistance path
      straight := if 0 < totalDistance path then straightness path else 0 }

/-- Test fixture: a straight horizontal 8-point path, step 5 (a spell
drawn left to right). -/
def pathRight : List Pos :=
  [(50, 100), (55, 100), (60, 100), (65, 100), (70, 100), (75, 100),
   (80, 100), (85, 100)]

/-- Test fixture: an 8-point path that doubles back on itself: net
displacement `(5, 0)`, traveled length 35, straightness `1/7`. -/
def pathCurved : List Pos :=
  [(0, 0), (5, 0), (10, 0), (15, 0), (20, 0), (15, 0), (10, 0), (5, 0)]

/-! ## Supporting lemmas about the tracker -/

/-- The comparison done by the source (`sqrt` of the squared distance
against the threshold) agrees with the integer comparison used in the
embedding. -/
theorem sqrt_lt_iff_sq_lt (a b : Pos) (m : ℕ) :
    Real.sqrt ((sqDist a b : ℤ) : ℝ) < (m : ℝ) ↔ sqDist a b < (m : ℤ) ^ 2 := by
  have hz : (0 : ℤ) ≤ sqDist a b := by
    have : (0 : ℤ) ≤ (b.1 - a.1) ^ 2 + (b.2 - a.2) ^ 2 := by positivity
    simpa [sqDist] using this
  have hnn : (0 : ℝ) ≤ ((sqDist a b : ℤ) : ℝ) := by exact_mod_cast hz
  rcases Nat.eq_zero_or_pos m with hm | hm
  · subst hm
    simp only [Nat.cast_zero]
    constructor
    · intro h; exact absurd h (not_lt.mpr (Real.sqrt_nonneg _))
    · intro h; exfalso; omega
  · have hmpos : (0 : ℝ) < (m : ℝ) := by exact_mod_cast hm
    rw [show ((m : ℕ) : ℝ) = Real.sqrt (((m : ℝ)) ^ 2) by
      rw [Real.sqrt_sq hmpos.le]]
    rw [Real.sqrt_lt_sqrt_iff hnn]
    constructor
    · intro h; exact_mod_cast h
    · intro h; exact_mod_cast h

theorem pushBounded_length (cap : ℕ) (xs : List Pos) (p : Pos) :
    (pushBounded cap xs p).length = min (xs.length + 1) cap := by
  unfold pushBounded
  simp only [List.length_drop, List.length_append, List.length_cons,
    List.length_nil]
  omega

theorem pushBounded_ne_nil (cap : ℕ) (hcap : 0 < cap) (xs : List Pos)
    (p : Pos) : pushBounded cap xs p ≠ [] := by
  intro hn
  have h := pushBounded_length cap xs p
  rw [hn] at h
  simp only [List.length_nil] at h
  omega

theorem update_none_eq (cfg : TrackerConfig) (s : WandState) (now : ℚ) :
    update cfg s none now =
      (if s.isCasting = true ∧ 0 < s.path.length
        then { s with isCasting := false, lastPosition := none }
        else { s with lastPosition := none }, false) := by
  unfold update
  split_ifs <;> rfl

theorem update_some_gated (cfg : TrackerConfig) (s : WandState) (p : Pos)
    (now : ℚ) (h : gatedOut cfg s p = true) :
    update cfg s (some p) now = (s, s.isCasting) := by
  simp only [update]
  rw [if_pos h]

theorem update_some_accept (cfg : TrackerConfig) (s : WandState) (p : Pos)
    (now : ℚ) (h : gatedOut cfg s p = false) :
    update cfg s (some p) now =
      (if s.isCasting then
        { s with path := pushBounded cfg.pathLength s.path p,
                 lastPosition := some p }
       else
        { s with isCasting := true, castStartTime := some now,
                 path := pushBounded cfg.pathLength [] p,
                 lastPosition := some p }, true) := by
  simp only [update]
  rw [if_neg (by simp [h])]
  split_ifs <;> rfl

/-- C7: when a present position is received while a last-seen position
exists and the Euclidean distance to it is strictly below `min_movement`,
`update` changes no state component and returns `true` iff the tracker is
casting. -/
theorem claim_update_gate_no_change (cfg : TrackerConfig) (s : WandState)
    (p lastp : Pos) (now : ℚ)
    (hlast : s.lastPosition = some lastp)
    (hdist : Real.sqrt ((sqDist lastp p : ℤ) : ℝ) < (cfg.minMovement : ℝ)) :
    update cfg s (some p) now = (s, s.isCasting) := by
  apply update_some_gated
  unfold gatedOut
  rw [hlast]
  exact decide_eq_true ((sqrt_lt_iff_sq_lt lastp p cfg.minMovement).mp hdist)

/-- Witness for C7: with `min_movement = 5`, feeding `(3,0)` while the
last-seen position is `(0,0)` (distance 3) leaves the state untouched and
returns the casting flag. -/
theorem claim_update_gate_no_change_witness :
    update ⟨5, 30⟩ ⟨[(0, 0)], some (0, 0), true, some 1⟩ (some (3, 0)) 2 =
      (⟨[(0, 0)], some (0, 0), true, some 1⟩, true) := by
  have h9 : Real.sqrt ((sqDist ((0 : ℤ), (0 : ℤ)) ((3 : ℤ), (0 : ℤ)) : ℤ) : ℝ)
      < ((5 : ℕ) : ℝ) := by
    have hsq : sqDist ((0 : ℤ), (0 : ℤ)) ((3 : ℤ), (0 : ℤ)) = 9 := by decide
    rw [hsq, show ((9 : ℤ) : ℝ) = 3 ^ 2 by norm_num,
      Real.sqrt_sq (by norm_num : (0 : ℝ) ≤ 3)]
    norm_num
  exact claim_update_gate_no_change ⟨5, 30⟩
    ⟨[(0, 0)], some (0, 0), true, some 1⟩ (3, 0) (0, 0) 2 rfl h9

/-- C4: on a lost position (`none`), starting from any state satisfying
the reachable-state invariant, `update` forces the idle state, clears the
last-seen position, keeps the path and `cast_start_time` exactly as they
were, and returns `false` — also when the state was already idle. -/
theorem claim_update_none (cfg : TrackerConfig) (s : WandState) (now : ℚ)
    (h : Inv s) :
    update cfg s none now =
      ({ s with isCasting := false, lastPosition := none }, false) := by
  rw [update_none_eq]
  split_ifs with hc
  · rfl
  · have hcast : s.isCasting = false := by
      cases hsc : s.isCasting
      · rfl
      · exact absurd ⟨hsc, List.length_pos.mpr (h.1 hsc)⟩ hc
    obtain ⟨path, lp, ic, cst⟩ := s
    simp only at hcast
    rw [hcast]

/-- Witness for C4: losing the wand while casting with path `[(0,0)]`
yields the idle state with the path intact and result `false`. -/
theorem claim_update_none_witness :
    update ⟨5, 30⟩ ⟨[(0, 0)], some (0, 0), true, some 1⟩ none 2 =
      (⟨[(0, 0)], none, false, some 1⟩, false) :=
  claim_update_none ⟨5, 30⟩ ⟨[(0, 0)], some (0, 0), true, some 1⟩ 2
    (by decide)

/-- C1 counterexample: start a cast at time 10, lose the wand at time 11;
the tracker is no longer casting, yet `get_cast_duration` at time 12
returns `12 - 10 = 2`, not `0` — `cast_start_time` survives the end of
the cast, so the claim's "returns 0 whenever the state is not Casting"
fails before `reset()` is called. -/
theorem claim_cast_duration_counterexample :
    (run ⟨5, 30⟩ initState
      [.upd (some (0, 0)) 10, .upd none 11]).isCasting = false ∧
    getCastDuration
      (run ⟨5, 30⟩ initState [.upd (some (0, 0)) 10, .upd none 11]) 12 ≠ 0 ∧
    getCastDuration
      (run ⟨5, 30⟩ initState [.upd (some (0, 0)) 10, .upd none 11]) 12 = 2 := by
  have hrun : run ⟨5, 30⟩ initState [.upd (some (0, 0)) 10, .upd none 11]
      = ⟨[(0, 0)], none, false, some 10⟩ := rfl
  refine ⟨by rw [hrun], ?_, ?_⟩
  · rw [hrun]
    show (if (10 : ℚ) = 0 then (0 : ℚ) else 12 - 10) ≠ 0
    norm_num
  · rw [hrun]
    show (if (10 : ℚ) = 0 then (0 : ℚ) else 12 - 10) = 2
    norm_num

/-- C1 as amended: `get_cast_duration` returns `now - cast_start_time`
whenever `cast_start_time` is set (and nonzero), regardless of the casting
flag; losing the wand preserves `cast_start_time`; and the duration is `0`
initially and after `reset()` (when `cast_start_time` is `None`). -/
theorem claim_cast_duration_amended (cfg : TrackerConfig) (s : WandState)
    (t now now' : ℚ) (ht : s.castStartTime = some t) (ht0 : t ≠ 0) :
    getCastDuration s now = now - t ∧
    ((update cfg s none now').1).castStartTime = s.castStartTime ∧
    getCastDuration (reset s) now = 0 ∧
    getCastDuration initState now = 0 := by
  refine ⟨?_, ?_, rfl, rfl⟩
  · unfold getCastDuration
    rw [ht]
    exact if_neg ht0
  · rw [update_none_eq]
    split_ifs <;> rfl

/-- Witness for C1's amended claim: a state with `cast_start_time = 10`
that is not casting still reports duration `2` at time 12. -/
theorem claim_cast_duration_amended_witness :
    getCastDuration ⟨[(0, 0)], none, false, some 10⟩ 12 = 12 - 10 ∧
    ((update ⟨5, 30⟩ ⟨[(0, 0)], none, false, some 10⟩ none 11).1).castStartTime
      = some 10 ∧
    getCastDuration (reset ⟨[(0, 0)], none, false, some 10⟩) 12 = 0 ∧
    getCastDuration initState 12 = 0 :=
  claim_cast_duration_amended ⟨5, 30⟩ ⟨[(0, 0)], none, false, some 10⟩
    10 12 11 rfl (by norm_num)

theorem inv_initState : Inv initState := by decide

theorem step_inv (cfg : TrackerConfig) (hcap : 0 < cfg.pathLength)
    (s : WandState) (c : TrackerCall) (h : Inv s) : Inv (step cfg s c) := by
  cases c with
  | reset => exact ⟨by simp [step, reset], fun _ => rfl⟩
  | upd pos now =>
    cases pos with
    | none =>
      rw [step, update_none_eq]
      by_cases hc : s.isCasting = true ∧ 0 < s.path.length
      · rw [if_pos hc]
        exact ⟨fun ht => by simp at ht, fun _ => rfl⟩
      · rw [if_neg hc]
        have hcast : s.isCasting = false := by
          cases hsc : s.isCasting
          · rfl
          · exact absurd ⟨hsc, List.length_pos.mpr (h.1 hsc)⟩ hc
        exact ⟨fun ht => by simp [hcast] at ht, fun _ => rfl⟩
    | some p =>
      rw [step]
      cases hg : gatedOut cfg s p
      · rw [update_some_accept cfg s p now hg]
        split_ifs with hcast
        · exact ⟨fun _ => pushBounded_ne_nil _ hcap _ _,
            fun hf => by simp [hcast] at hf⟩
        · exact ⟨fun _ => pushBounded_ne_nil _ hcap _ _,
            fun hf => by simp at hf⟩
      · rw [update_some_gated cfg s p now hg]
        exact h

theorem run_inv (cfg : TrackerConfig) (hcap : 0 < cfg.pathLength)
    (calls : List TrackerCall) :
    ∀ s, Inv s → Inv (run cfg s calls) := by
  induction calls with
  | nil => exact fun s h => h
  | cons c cs ih => exact fun s h => ih _ (step_inv cfg hcap s c h)

theorem step_path_le (cfg : TrackerConfig) (s : WandState) (c : TrackerCall)
    (h : s.path.length ≤ cfg.pathLength) :
    (step cfg s c).path.length ≤ cfg.pathLength := by
  cases c with
  | reset => simp [step, reset]
  | upd pos now =>
    cases pos with
    | none =>
      rw [step, update_none_eq]
      split_ifs <;> simpa using h
    | some p =>
      rw [step]
      cases hg : gatedOut cfg s p
      · rw [update_some_accept cfg s p now hg]
        split_ifs <;>
          · simp only [pushBounded_length]
            omega
      · rw [update_some_gated cfg s p now hg]
        exact h

theorem run_path_le (cfg : TrackerConfig) (calls : List TrackerCall) :
    ∀ s, s.path.length ≤ cfg.pathLength →
      (run cfg s calls).path.length ≤ cfg.pathLength := by
  induction calls with
  | nil => exact fun s h => h
  | cons c cs ih => exact fun s h => ih _ (step_path_le cfg s c h)

theorem suffix_append_same {l l' : List Pos} (t : List Pos) (h : l <:+ l') :
    l ++ t <:+ l' ++ t := by
  obtain ⟨u, hu⟩ := h
  exact ⟨u, by rw [← hu, List.append_assoc]⟩

theorem pushBounded_suffix (cap : ℕ) (xs : List Pos) (p : Pos) :
    pushBounded cap xs p <:+ xs ++ [p] := by
  unfold pushBounded
  exact List.drop_suffix _ _

theorem update_none_path (cfg : TrackerConfig) (s : WandState) (now : ℚ) :
    ((update cfg s none now).1).path = s.path := by
  rw [update_none_eq]
  split_ifs <;> rfl

theorem run_path_suffix_gen (cfg : TrackerConfig) (calls : List TrackerCall) :
    ∀ s acc, s.path <:+ acc →
      (run cfg s calls).path <:+ acc ++ acceptedFrom cfg s calls := by
  induction calls with
  | nil =>
    intro s acc h
    simpa [acceptedFrom] using h
  | cons c cs ih =>
    intro s acc h
    cases c with
    | reset =>
      rw [run, acceptedFrom]
      refine ih _ acc ?_
      have hs : (step cfg s .reset).path = [] := rfl
      rw [hs]
      exact List.nil_suffix
    | upd pos now =>
      cases pos with
      | none =>
        rw [run, acceptedFrom]
        refine ih _ acc ?_
        have hs : (step cfg s (.upd none now)).path = s.path :=
          update_none_path cfg s now
        rw [hs]
        exact h
      | some p =>
        cases hg : gatedOut cfg s p
        · rw [run, acceptedFrom, hg]
          simp only [Bool.false_eq_true, if_false, ← List.append_assoc]
          refine ih _ (acc ++ [p]) ?_
          rw [step, update_some_accept cfg s p now hg]
          split_ifs with hcast
          · exact (pushBounded_suffix _ _ _).trans (suffix_append_same [p] h)
          · exact (pushBounded_suffix _ _ _).trans (suffix_append_same [p]
              (show ([] : List Pos) <:+ acc from List.nil_suffix))
        · rw [run, acceptedFrom, hg]
          simp only [if_true, List.nil_append]
          refine ih _ acc ?_
          rw [step, update_some_gated cfg s p now hg]
          exact h

/-- C5: from the initial state, after any sequence of calls the path never
exceeds `path_length`; the path is always a suffix of the chronological
list of positions the run accepted; and a point accepted while casting
with a full path evicts exactly the single oldest entry. -/
theorem claim_path_bounded (cfg : TrackerConfig) (calls : List TrackerCall) :
    (run cfg initState calls).path.length ≤ cfg.pathLength ∧
    (run cfg initState calls).path <:+ acceptedFrom cfg initState calls ∧
    (∀ (s : WandState) (p : Pos) (now : ℚ),
      s.path.length = cfg.pathLength → 0 < cfg.pathLength →
      gatedOut cfg s p = false → s.isCasting = true →
      ((update cfg s (some p) now).1).path = s.path.drop 1 ++ [p]) := by
  refine ⟨?_, ?_, ?_⟩
  · exact run_path_le cfg calls initState (by simp [initState])
  · simpa using run_path_suffix_gen cfg calls initState []
      (by simp [initState])
  · intro s p now hfull hcap hg hcast
    rw [update_some_accept cfg s p now hg]
    simp only [hcast, if_true]
    unfold pushBounded
    simp only [List.length_append, List.length_cons, List.length_nil, hfull]
    have h1 : cfg.pathLength + 0 + 1 - cfg.pathLength = 1 := by omega
    rw [h1, List.drop_append_of_le_length (by omega)]

/-- Witness for C5: with capacity 3, four accepted points leave a path of
length at most 3, and accepting `(30,0)` on the full path
`[(0,0),(10,0),(20,0)]` evicts only `(0,0)`. -/
theorem claim_path_bounded_witness :
    (run ⟨5, 3⟩ initState
      [.upd (some (0, 0)) 0, .upd (some (10, 0)) 0, .upd (some (20, 0)) 0,
       .upd (some (30, 0)) 0]).path.length ≤ 3 ∧
    ((update ⟨5, 3⟩ ⟨[(0, 0), (10, 0), (20, 0)], some (20, 0), true, some 0⟩
        (some (30, 0)) 1).1).path = [(10, 0), (20, 0), (30, 0)] := by
  constructor
  · exact (claim_path_bounded ⟨5, 3⟩ _).1
  · have h := (claim_path_bounded ⟨5, 3⟩ []).2.2
      ⟨[(0, 0), (10, 0), (20, 0)], some (20, 0), true, some 0⟩ (30, 0) 1
      (by decide) (by decide) (by decide) rfl
    rw [h]
    rfl

/-- C9: every state reachable from the initial state by `update` and
`reset` calls satisfies the invariant (casting → nonempty path, idle → no
last-seen position); consequently a present position received while idle
is never gated out: it always starts a fresh cast whose path holds exactly
that position. -/
theorem claim_reachable_inv (cfg : TrackerConfig) (hcap : 0 < cfg.pathLength)
    (calls : List TrackerCall) :
    Inv (run cfg initState calls) ∧
    (∀ (s : WandState) (p : Pos) (now : ℚ), Inv s → s.isCasting = false →
      update cfg s (some p) now =
        (⟨[p], some p, true, some now⟩, true)) := by
  constructor
  · exact run_inv cfg hcap calls initState inv_initState
  · intro s p now hInv hcast
    have hg : gatedOut cfg s p = false := by
      unfold gatedOut
      rw [hInv.2 hcast]
    rw [update_some_accept cfg s p now hg]
    rw [if_neg (by simp [hcast])]
    have hp : pushBounded cfg.pathLength [] p = [p] := by
      have h0 : 0 + 1 - cfg.pathLength = 0 := by omega
      simp [pushBounded, h0]
    rw [hp]

/-- Witness for C9: the invariant holds after a concrete run, and an idle
state (with a stale path from an earlier cast) accepts a new position
directly into a fresh one-point cast. -/
theorem claim_reachable_inv_witness :
    Inv (run ⟨5, 30⟩ initState [.upd (some (0, 0)) 1, .upd none 2]) ∧
    update ⟨5, 30⟩ ⟨[(1, 1)], none, false, some 3⟩ (some (7, 7)) 4 =
      (⟨[(7, 7)], some (7, 7), true, some 4⟩, true) :=
  ⟨(claim_reachable_inv ⟨5, 30⟩ (by decide) _).1,
   (claim_reachable_inv ⟨5, 30⟩ (by decide) []).2
     ⟨[(1, 1)], none, false, some 3⟩ (7, 7) 4 (by decide) rfl⟩

/-! ## Geometry of paths: the recognizer's distance computations -/

theorem sqrt_eval (x r : ℝ) (hr : 0 ≤ r) (h : x = r ^ 2) :
    Real.sqrt x = r := by
  rw [h, Real.sqrt_sq hr]

theorem segDist_eval (x₁ y₁ x₂ y₂ : ℤ) (r : ℝ) (hr : 0 ≤ r)
    (h : ((x₂ - x₁ : ℤ) : ℝ) ^ 2 + ((y₂ - y₁ : ℤ) : ℝ) ^ 2 = r ^ 2) :
    segDist (x₁, y₁) (x₂, y₂) = r := by
  simp only [segDist]
  exact sqrt_eval _ _ hr h

theorem segDist_self (a : Pos) : segDist a a = 0 := by
  simp [segDist]

theorem segDist_nonneg (a b : Pos) : 0 ≤ segDist a b :=
  Real.sqrt_nonneg _

theorem segDist_eq_abs (a b : Pos) :
    segDist a b
      = Complex.abs ⟨((b.1 - a.1 : ℤ) : ℝ), ((b.2 - a.2 : ℤ) : ℝ)⟩ := by
  rw [Complex.abs_apply, Complex.normSq_mk]
  simp only [segDist]
  congr 1
  ring

theorem segDist_triangle (a b c : Pos) :
    segDist a c ≤ segDist a b + segDist b c := by
  rw [segDist_eq_abs a c, segDist_eq_abs a b, segDist_eq_abs b c]
  have h : (⟨((c.1 - a.1 : ℤ) : ℝ), ((c.2 - a.2 : ℤ) : ℝ)⟩ : ℂ)
      = (⟨((b.1 - a.1 : ℤ) : ℝ), ((b.2 - a.2 : ℤ) : ℝ)⟩ : ℂ)
        + (⟨((c.1 - b.1 : ℤ) : ℝ), ((c.2 - b.2 : ℤ) : ℝ)⟩ : ℂ) := by
    apply Complex.ext <;>
      · simp only [Complex.add_re, Complex.add_im]
        push_cast
        ring
  rw [h]
  exact Complex.abs.add_le _ _

theorem getLastI_cons_cons (a b : Pos) (l : List Pos) :
    (a :: b :: l).getLastI = (b :: l).getLastI := by
  rw [List.getLastI_eq_getLast?, List.getLastI_eq_getLast?,
    List.getLast?_cons_cons]

theorem totalDistance_nonneg (path : List Pos) : 0 ≤ totalDistance path := by
  induction path with
  | nil => simp [totalDistance]
  | cons a tail ih =>
    cases tail with
    | nil => simp [totalDistance]
    | cons b rest =>
      rw [totalDistance]
      have h1 := segDist_nonneg a b
      linarith

theorem straight_le_total (path : List Pos) :
    segDist path.headI path.getLastI ≤ totalDistance path := by
  induction path with
  | nil => exact le_of_eq (segDist_self default)
  | cons a tail ih =>
    cases tail with
    | nil => exact le_of_eq (segDist_self a)
    | cons b rest =>
      have ih' : segDist b ((b :: rest).getLastI)
          ≤ totalDistance (b :: rest) := by simpa using ih
      have htri := segDist_triangle a b ((b :: rest).getLastI)
      have hhead : (a :: b :: rest).headI = a := rfl
      rw [hhead, getLastI_cons_cons, totalDistance]
      linarith

theorem straightDistance_eq_segDist (path : List Pos) :
    straightDistance path = segDist path.headI path.getLastI := rfl

/-- C8: for a path of at least two points the start-to-end straight-line
distance never exceeds the summed segment lengths, so whenever
`straight_distance > 0` the divisor `total_distance` of the straightness
ratio is strictly positive and the ratio lies in `(0, 1]`. -/
theorem claim_straightness_bounds (path : List Pos)
    (_hlen : 2 ≤ path.length) :
    straightDistance path ≤ totalDistance path ∧
    (0 < straightDistance path →
      0 < totalDistance path ∧
      0 < straightness path ∧ straightness path ≤ 1) := by
  have hle : straightDistance path ≤ totalDistance path := by
    rw [straightDistance_eq_segDist]
    exact straight_le_total path
  refine ⟨hle, fun hsd => ?_⟩
  have htot : 0 < totalDistance path := lt_of_lt_of_le hsd hle
  refine ⟨htot, ?_, ?_⟩
  · rw [straightness]
    exact div_pos hsd htot
  · rw [straightness]
    exact (div_le_one htot).mpr hle

/-- Witness for C8 on the two-point path `[(0,0),(3,4)]`
(straight distance 5). -/
theorem claim_straightness_bounds_witness :
    straightDistance [((0 : ℤ), (0 : ℤ)), ((3 : ℤ), (4 : ℤ))]
      ≤ totalDistance [((0 : ℤ), (0 : ℤ)), ((3 : ℤ), (4 : ℤ))] ∧
    0 < straightness [((0 : ℤ), (0 : ℤ)), ((3 : ℤ), (4 : ℤ))] ∧
    straightness [((0 : ℤ), (0 : ℤ)), ((3 : ℤ), (4 : ℤ))] ≤ 1 := by
  have h := claim_straightness_bounds
    [((0 : ℤ), (0 : ℤ)), ((3 : ℤ), (4 : ℤ))] (by decide)
  have hsd : 0 < straightDistance [((0 : ℤ), (0 : ℤ)), ((3 : ℤ), (4 : ℤ))] := by
    have hd : displacement [((0 : ℤ), (0 : ℤ)), ((3 : ℤ), (4 : ℤ))]
        = (3, 4) := by decide
    simp only [straightDistance, hd]
    rw [Real.sqrt_pos]
    norm_num
  exact ⟨h.1, (h.2 hsd).2.1, (h.2 hsd).2.2⟩

/-! ## Recognizer classification claims -/

/-- C2: with a positive `min_points` (for `min_points = 0` the Python
source would raise an `IndexError` on the empty path rather than return),
`recognize` returns `None` in exactly three cases: too few points; no net
displacement; or a straight-enough gesture whose dominant displacement is
under 30 pixels. In every other case it returns one of the five labels. -/
theorem claim_recognize_none_iff (cfg : RecognizerConfig) (path : List Pos)
    (_hmp : 0 < cfg.minPoints) :
    recognize cfg path = none ↔
      (path.length < cfg.minPoints
       ∨ (cfg.minPoints ≤ path.length ∧ straightDistance path = 0)
       ∨ (cfg.minPoints ≤ path.length ∧ 0 < straightDistance path
          ∧ cfg.straightnessThreshold ≤ straightness path
          ∧ max |(displacement path).1| |(displacement path).2| < 30)) := by
  have hsd0 : 0 ≤ straightDistance path := Real.sqrt_nonneg _
  unfold recognize
  split_ifs with h1 h2 h3 h4 h5 h6 h7
  · simp [h1]
  · simp [h2, not_lt.mp h1]
  · simp [h1, h2, not_le.mpr h3]
  · simp [not_lt.mp h1, h2, not_lt.mp h3, h4, hsd0.lt_of_ne (Ne.symm h2)]
  · simp [h1, h2, h4]
  · simp [h1, h2, h4]
  · simp [h1, h2, h4]
  · simp [h1, h2, h4]

/-- Witness for C2: an empty path is silently rejected under the default
configuration. -/
theorem claim_recognize_none_iff_witness :
    recognize ⟨8, 3 / 5⟩ [] = none :=
  (claim_recognize_none_iff ⟨8, 3 / 5⟩ [] (by norm_num)).mpr
    (Or.inl (by decide))

/-- C3: a path passing the length, displacement, straightness, and
minimum-movement checks is classified by dominant axis: `Right`/`Left`
when `|dx| > |dy|` by the sign of `dx`, `Down`/`Up` when `|dx| ≤ |dy|` by
the sign of `dy` — the exact tie `|dx| = |dy|` falls into the vertical
branch. -/
theorem claim_recognize_classify (cfg : RecognizerConfig) (path : List Pos)
    (hlen : cfg.minPoints ≤ path.length)
    (hsd : 0 < straightDistance path)
    (hstr : cfg.straightnessThreshold ≤ straightness path)
    (hdisp : 30 ≤ max |(displacement path).1| |(displacement path).2|) :
    (|(displacement path).2| < |(displacement path).1| →
      0 < (displacement path).1 →
      recognize cfg path = some .horizontalRight) ∧
    (|(displacement path).2| < |(displacement path).1| →
      (displacement path).1 < 0 →
      recognize cfg path = some .horizontalLeft) ∧
    (|(displacement path).1| ≤ |(displacement path).2| →
      0 < (displacement path).2 →
      recognize cfg path = some .verticalDown) ∧
    (|(displacement path).1| ≤ |(displacement path).2| →
      (displacement path).2 < 0 →
      recognize cfg path = some .verticalUp) := by
  have hbase : recognize cfg path =
      (if |(displacement path).2| < |(displacement path).1| then
        if 0 < (displacement path).1 then some SpellLabel.horizontalRight
        else some SpellLabel.horizontalLeft
      else
        if 0 < (displacement path).2 then some SpellLabel.verticalDown
        else some SpellLabel.verticalUp) := by
    unfold recognize
    rw [if_neg (not_lt.mpr hlen), if_neg hsd.ne', if_neg (not_lt.mpr hstr),
      if_neg (not_lt.mpr hdisp)]
  refine ⟨fun hA hB => ?_, fun hA hB => ?_, fun hA hB => ?_, fun hA hB => ?_⟩
    <;> rw [hbase]
  · rw [if_pos hA, if_pos hB]
  · rw [if_pos hA, if_neg (not_lt.mpr hB.le)]
  · rw [if_neg (not_lt.mpr hA), if_pos hB]
  · rw [if_neg (not_lt.mpr hA), if_neg (not_lt.mpr hB.le)]

/-- Witness for C3: the straight horizontal path is recognized as
`Horizontal Line Right`. -/
theorem claim_recognize_classify_witness :
    recognize ⟨8, 3 / 5⟩ pathRight = some .horizontalRight := by
  have hd : displacement pathRight = (35, 0) := by decide
  have hsdv : straightDistance pathRight = 35 := by
    simp only [straightDistance, hd]
    exact sqrt_eval _ 35 (by norm_num) (by norm_num)
  have htot : totalDistance pathRight = 35 := by
    simp only [pathRight, totalDistance]
    rw [segDist_eval 50 100 55 100 5 (by norm_num) (by norm_num),
      segDist_eval 55 100 60 100 5 (by norm_num) (by norm_num),
      segDist_eval 60 100 65 100 5 (by norm_num) (by norm_num),
      segDist_eval 65 100 70 100 5 (by norm_num) (by norm_num),
      segDist_eval 70 100 75 100 5 (by norm_num) (by norm_num),
      segDist_eval 75 100 80 100 5 (by norm_num) (by norm_num),
      segDist_eval 80 100 85 100 5 (by norm_num) (by norm_num)]
    norm_num
  exact (claim_recognize_classify ⟨8, 3 / 5⟩ pathRight (by decide)
    (by rw [hsdv]; norm_num)
    (by rw [straightness, hsdv, htot]; norm_num)
    (by rw [hd]; decide)).1 (by rw [hd]; decide) (by rw [hd]; decide)

/-- C6: once a path has enough points and nonzero net displacement,
`recognize` returns `Unknown` exactly when the straightness ratio is below
the threshold — the straightness check precedes the minimum-displacement
check, so a too-curved path is `Unknown` even when its displacement is
under 30 pixels. -/
theorem claim_recognize_unknown_iff (cfg : RecognizerConfig)
    (path : List Pos)
    (hlen : cfg.minPoints ≤ path.length)
    (hsd : 0 < straightDistance path) :
    recognize cfg path = some .unknown ↔
      straightness path < cfg.straightnessThreshold := by
  unfold recognize
  rw [if_neg (not_lt.mpr hlen), if_neg hsd.ne']
  split_ifs with h3 h4 h5 h6 h7 <;> simp [h3]

/-- Witness for C6: the doubled-back path (straightness `1/7`, dominant
displacement only 5 pixels, well under 30) is classified `Unknown`, not
silently rejected. -/
theorem claim_recognize_unknown_iff_witness :
    recognize ⟨8, 3 / 5⟩ pathCurved = some .unknown := by
  have hd : displacement pathCurved = (5, 0) := by decide
  have hsdv : straightDistance pathCurved = 5 := by
    simp only [straightDistance, hd]
    exact sqrt_eval _ 5 (by norm_num) (by norm_num)
  have htot : totalDistance pathCurved = 35 := by
    simp only [pathCurved, totalDistance]
    rw [segDist_eval 0 0 5 0 5 (by norm_num) (by norm_num),
      segDist_eval 5 0 10 0 5 (by norm_num) (by norm_num),
      segDist_eval 10 0 15 0 5 (by norm_num) (by norm_num),
      segDist_eval 15 0 20 0 5 (by norm_num) (by norm_num),
      segDist_eval 20 0 15 0 5 (by norm_num) (by norm_num),
      segDist_eval 15 0 10 0 5 (by norm_num) (by norm_num),
      segDist_eval 10 0 5 0 5 (by norm_num) (by norm_num)]
    norm_num
  refine (claim_recognize_unknown_iff ⟨8, 3 / 5⟩ pathCurved (by decide)
    ?_).mpr ?_
  · rw [hsdv]; norm_num
  · rw [straightness, hsdv, htot]; norm_num

/-! ## Blob locator claim -/

/-- C10: a frame in which no pixel reaches the brightness threshold
produces no bright pixels, hence no contours, and `find_wand` returns
`None`. -/
theorem claim_find_wand_dark (frame : Frame) (thresh : ℕ)
    (h : ∀ y, y < frame.length → ∀ x, x < (frame.getD y []).length →
      pixelVal frame (x, y) < thresh) :
    find_wand frame thresh = none := by
  have hbp : brightPixels frame thresh = [] := by
    unfold brightPixels
    rw [List.flatMap_eq_nil_iff]
    intro y hy
    rw [List.filterMap_eq_nil_iff]
    intro x hx
    rw [List.mem_range] at hy hx
    rw [if_neg]
    exact not_lt.mpr (le_of_lt (h y hy x hx))
  unfold find_wand
  rw [hbp]
  rfl

/-- Witness for C10: an all-dark 2×2 frame under threshold 200. -/
theorem claim_find_wand_dark_witness :
    find_wand [[0, 0], [0, 0]] 200 = none :=
  claim_find_wand_dark [[0, 0], [0, 0]] 200 (by decide)

end PotterPi
